import Mathlib

/-!
Verification of the hybrid retrieval core of the IR-group-project repository:
a shallow embedding in Lean 4 of the inverted lexical index with BM25 scoring
(`retrieving/indexing/inverted_index.py`, `retrieving/scoring/keyword_scorer.py`),
the dense vector index with cosine search (`retrieving/indexing/vector_index.py`),
and the RRF fusion layer (`retrieving/hybrid_retriever/hybrid_retriever.py`),
together with theorems settling the frozen claims about these components.

Modelling conventions:
- Python `dict` / `collections.defaultdict` values are insertion-ordered
  association lists `List (String × α)`; an assignment updates the first
  (and, for dicts built by this code, only) matching key in place, and a
  write to an absent key appends at the end, exactly as CPython preserves
  insertion order.
- Python floats are modelled as exact numbers: `ℚ` where the source only
  adds, multiplies and divides, and `ℝ` where `math.log` appears.
- Fallible operations (Python `raise`) return `Except PyError`.
- The NLTK `SnowballStemmer` wrapped by `CustomStemmer` is an external
  library, not repository code; following the spec (§4.1: a pluggable, pure,
  deterministic token-to-token map), it is modelled as an arbitrary function
  parameter `stem : String → String`.
-/

/-- Errors raised by the modelled Python code. -/
inductive PyError where
  | valueError
  | typeError
deriving DecidableEq

/-! ### Insertion-ordered dictionaries (Python `dict` / `defaultdict`) -/

/-- `d[k]` lookup returning `none` when the key is absent (first match wins,
which for Python dicts is the only match). -/
def dictFind? {α : Type} : List (String × α) → String → Option α
  | [], _ => none
  | p :: rest, k => if p.1 == k then some p.2 else dictFind? rest k

/-- `d.get(k, v)`: lookup with a default. -/
def dictGetD {α : Type} (d : List (String × α)) (k : String) (v : α) : α :=
  (dictFind? d k).getD v

/-- `d[k] = v`: update in place when the key exists, append otherwise. -/
def dictSet {α : Type} : List (String × α) → String → α → List (String × α)
  | [], k, v => [(k, v)]
  | p :: rest, k, v => if p.1 == k then (p.1, v) :: rest else p :: dictSet rest k v

/-- `defaultdict` read-modify-write `d[k] = f(d[k])` with default `dflt` for an
absent key (e.g. `raw_scores[cid] += x` on a `defaultdict(float)`, or
`self.index[term].append(...)` on a `defaultdict(list)`). -/
def dictModify {α : Type} : List (String × α) → String → α → (α → α) → List (String × α)
  | [], k, dflt, f => [(k, f dflt)]
  | p :: rest, k, dflt, f =>
    if p.1 == k then (p.1, f p.2) :: rest else p :: dictModify rest k dflt f

/-- The keys of a dictionary, in insertion order. -/
def dictKeys {α : Type} (d : List (String × α)) : List String :=
  d.map Prod.fst

/-! ### Tokenization (`re.findall(r"\b\w+\b", text.lower())`) -/

/-- Python `str.lower()`, character by character. -/
def pyLower (s : String) : String := String.mk (s.toList.map Char.toLower)

/-- Python regex word character (`\w`): alphanumeric or underscore. -/
def isPyWordChar (c : Char) : Bool := c.isAlphanum || c == '_'

/-- Collects the maximal runs of word characters; `cur` is the current run,
reversed. -/
def wordRuns : List Char → List Char → List String
  | [], cur => if cur.isEmpty then [] else [String.mk cur.reverse]
  | c :: cs, cur =>
    if isPyWordChar c then wordRuns cs (c :: cur)
    else if cur.isEmpty then wordRuns cs []
    else String.mk cur.reverse :: wordRuns cs []

/-- `re.findall(r"\b\w+\b", text.lower())`: the maximal word-character runs of
the lower-cased text. -/
def pyFindallWords (text : String) : List String :=
  wordRuns (pyLower text).toList []

/-- `collections.Counter(tokens)`: per-token counts, keys in first-occurrence
order. -/
def counter (tokens : List String) : List (String × Nat) :=
  tokens.foldl (fun d t => dictModify d t 0 (fun n => n + 1)) []

/-! ### Data model (`retrieving/utils/models.py`) -/

/-- `Chunk` dataclass; the `metadata : Dict[str, str]` field plays no role in
indexing or scoring and is omitted. -/
structure Chunk where
  id : String
  doc_id : String
  text : String
  position : Int
deriving DecidableEq

/-! ### InvertedIndex (`retrieving/indexing/inverted_index.py`) -/

structure InvertedIndex where
  index : List (String × List (String × Nat))
  chunk_lengths : List (String × Nat)
  N : Nat
  avg_dl : ℚ
deriving DecidableEq

/-- `InvertedIndex.__init__`: empty defaultdict, empty lengths, `N = 0`,
`avg_dl = 0.0`. -/
def InvertedIndex.init : InvertedIndex :=
  { index := [], chunk_lengths := [], N := 0, avg_dl := 0 }

/-- `InvertedIndex._tokenize`: `re.findall(r"\b\w+\b", text.lower())` followed
by `stemmer.stem_tokens`, which maps the external stemmer over the tokens. -/
def InvertedIndex.tokenizeText (stem : String → String) (text : String) : List String :=
  (pyFindallWords text).map stem

/-- One iteration of the `for chunk in chunks` loop of
`InvertedIndex.build_index`: record the chunk length, then append
`(chunk.id, tf)` to each term posting list, terms in `Counter` order. -/
def InvertedIndex.buildChunkStep (stem : String → String) (st : InvertedIndex)
    (chunk : Chunk) : InvertedIndex :=
  let tokens := InvertedIndex.tokenizeText stem chunk.text
  let cl := dictSet st.chunk_lengths chunk.id tokens.length
  let idx := (counter tokens).foldl
    (fun ix tp => dictModify ix tp.1 [] (fun pl => pl ++ [(chunk.id, tp.2)])) st.index
  { st with chunk_lengths := cl, index := idx }

/-- `InvertedIndex.build_index(chunks)`: the chunk loop, then `N = len(chunks)`
and, when `N` is nonzero, `avg_dl = sum(chunk_lengths.values()) / N`.
Note that the loop only ever adds to `index` and `chunk_lengths`; no prior
state is cleared. -/
def InvertedIndex.build_index (stem : String → String) (st : InvertedIndex)
    (chunks : List Chunk) : InvertedIndex :=
  let st1 := chunks.foldl (InvertedIndex.buildChunkStep stem) st
  let n := chunks.length
  { st1 with
    N := n
    avg_dl := if n = 0 then st1.avg_dl
      else ((st1.chunk_lengths.map (fun p => (p.2 : ℚ))).sum) / (n : ℚ) }

/-- `InvertedIndex.get_postings`: `self.index.get(term.lower(), [])`. -/
def InvertedIndex.get_postings (st : InvertedIndex) (term : String) :
    List (String × Nat) :=
  dictGetD st.index (pyLower term) []

/-- `InvertedIndex.df`: `len(self.index.get(term.lower(), []))`. -/
def InvertedIndex.df (st : InvertedIndex) (term : String) : Nat :=
  (dictGetD st.index (pyLower term) []).length

/-- `self.inv.chunk_lengths[chunk_id]` as read by the scorer.  The Python
subscript raises `KeyError` on an absent key; on every index produced by
`build_index` each chunk id occurring in a posting list is present (the C4
theorem below), so the embedding totalizes the read with default `0`. -/
def InvertedIndex.dlOf (st : InvertedIndex) (cid : String) : Nat :=
  dictGetD st.chunk_lengths cid 0

/-! ### KeywordScorer (`retrieving/scoring/keyword_scorer.py`) -/

/-- BM25 scorer over an `InvertedIndex`.  Source defaults: `k1 = 1.2`,
`b = 0.75`; both caller-configurable. -/
structure KeywordScorer where
  inv : InvertedIndex
  k1 : ℝ
  b : ℝ

/-- `KeywordScorer._idf`: `math.log((N - df + 0.5) / (df + 0.5) + 1)` with
`N = self.inv.N`. -/
noncomputable def KeywordScorer.idf (s : KeywordScorer) (df : Nat) : ℝ :=
  Real.log (((s.inv.N : ℝ) - (df : ℝ) + 1/2) / ((df : ℝ) + 1/2) + 1)

/-- The per-posting BM25 term
`idf * (tf * (k1 + 1)) / (tf + k1 * (1 - b + b * dl / avg_dl))` added to
`raw_scores[chunk_id]` in `KeywordScorer.score` (its `numerator` and
`denominator` locals, combined as `idf * numerator / denominator`). -/
noncomputable def bm25Contribution (idf k1 b dl avg tf : ℝ) : ℝ :=
  idf * (tf * (k1 + 1)) / (tf + k1 * (1 - b + b * dl / avg))

/-- The body of the `for term in query_freqs` loop of `KeywordScorer.score`:
fetch postings and `df` for the term, skip it when `df == 0`, otherwise add
every posting's BM25 contribution to `raw_scores[chunk_id]`. -/
noncomputable def KeywordScorer.scoreTermStep (s : KeywordScorer)
    (acc : List (String × ℝ)) (tp : String × Nat) : List (String × ℝ) :=
  let postings := s.inv.get_postings tp.1
  let df := s.inv.df tp.1
  if df = 0 then acc
  else postings.foldl (fun acc2 p =>
    dictModify acc2 p.1 0 (fun v =>
      v + bm25Contribution (s.idf df) s.k1 s.b (s.inv.dlOf p.1 : ℝ)
        (s.inv.avg_dl : ℝ) (p.2 : ℝ))) acc

/-- The accumulation phase of `KeywordScorer.score` (its `raw_scores`
defaultdict after the `for term in query_freqs` loop): iterate the distinct
query terms in `Counter` order, applying `scoreTermStep` to each. -/
noncomputable def KeywordScorer.rawScores (s : KeywordScorer)
    (queryTerms : List String) : List (String × ℝ) :=
  (counter queryTerms).foldl s.scoreTermStep []

/-- `max(values)` of a nonempty Python list (0 for the empty list, which the
source never reaches because the branch is guarded by `raw_scores` nonempty). -/
noncomputable def listMaxR : List ℝ → ℝ
  | [] => 0
  | v :: vs => vs.foldl max v

/-- `min(values)` of a nonempty Python list (0 for the empty list). -/
noncomputable def listMinR : List ℝ → ℝ
  | [] => 0
  | v :: vs => vs.foldl min v

/-- The min-max normalisation block of `KeywordScorer.score`: rescale values to
`[0,1]` when max and min differ, otherwise set every value to `1.0`. -/
noncomputable def minMaxNormalize (raw : List (String × ℝ)) : List (String × ℝ) :=
  let maxS := listMaxR (raw.map (fun p => p.2))
  let minS := listMinR (raw.map (fun p => p.2))
  if maxS = minS then raw.map (fun p => (p.1, (1 : ℝ)))
  else raw.map (fun p => (p.1, (p.2 - minS) / (maxS - minS)))

/-- `sorted(raw_scores.items(), key=lambda x: x[1], reverse=True)`: Python
`sorted` is stable, so this is a stable sort by descending score. -/
noncomputable def sortByScoreDesc (l : List (String × ℝ)) : List (String × ℝ) :=
  @List.insertionSort _ (fun a b => b.2 ≤ a.2)
    (fun a b => Real.decidableLE b.2 a.2) l

/-- `KeywordScorer.score(query, top_k, normalize)`: stem the query
(`CustomStemmer.stem_text` = the shared tokenizer followed by the external
stemmer), accumulate `raw_scores`, optionally min-max normalise when the
result set is nonempty, then return the `top_k` items by descending score. -/
noncomputable def KeywordScorer.score (stem : String → String) (s : KeywordScorer)
    (query : String) (top_k : Nat) (normalize : Bool) : List (String × ℝ) :=
  let raw := s.rawScores ((pyFindallWords query).map stem)
  let raw2 := if normalize && !raw.isEmpty then minMaxNormalize raw else raw
  (sortByScoreDesc raw2).take top_k

/-- Spec-side restatement for claim C1: the BM25 score of chunk `cid` is the
sum, over the distinct query terms with nonzero document frequency, of the
contributions of that term's postings for `cid`. -/
noncomputable def specChunkScore (s : KeywordScorer) (queryTerms : List String)
    (cid : String) : ℝ :=
  ((counter queryTerms).map (fun tp =>
    if s.inv.df tp.1 = 0 then 0
    else (((s.inv.get_postings tp.1).filter (fun p => p.1 == cid)).map (fun p =>
      bm25Contribution (s.idf (s.inv.df tp.1)) s.k1 s.b (s.inv.dlOf p.1 : ℝ)
        (s.inv.avg_dl : ℝ) (p.2 : ℝ))).sum)).sum

/-! ### VectorIndex (`retrieving/indexing/vector_index.py`)

NumPy values are modelled as follows: an `Ndarray` carries its shape, whether
its dtype is numeric, and (when numeric) its entries as exact rationals in
row-major order; any non-ndarray Python object passed where an array is
expected is `PyObj.nonArray`.  `np.linalg.norm` is the square root of the sum
of squares; the square root is modelled by `ratSqrt`, which is exact whenever
the argument is a square of a rational (every concrete input below is), maps
`0` to `0` and positives to positives, exactly the properties the floating
point `sqrt` guarantees that the settled claims rely on. -/

structure Ndarray where
  shape : List Nat
  numeric : Bool
  data : List ℚ
deriving DecidableEq

inductive PyObj where
  | array (a : Ndarray)
  | nonArray
deriving DecidableEq

/-- `ndarray.ndim`: the number of axes. -/
def Ndarray.ndim (a : Ndarray) : Nat := a.shape.length

/-- A 2-D matrix with its shape, rows in row-major order. -/
structure NpMatrix where
  rows : Nat
  cols : Nat
  data : List (List ℚ)
deriving DecidableEq

/-- `np.empty((0, 0))`. -/
def NpMatrix.empty00 : NpMatrix := { rows := 0, cols := 0, data := [] }

/-- `ndarray.size` of a 2-D matrix: the product of its dimensions. -/
def NpMatrix.size (m : NpMatrix) : Nat := m.rows * m.cols

/-- Rational square root: exact on squares of rationals, `0 ↦ 0`,
positive on positives (see the section comment). -/
def ratSqrt (q : ℚ) : ℚ := (Nat.sqrt q.num.natAbs : ℚ) / (Nat.sqrt q.den : ℚ)

/-- Sum of squares of a vector. -/
def sumSq (v : List ℚ) : ℚ := (v.map (fun x => x * x)).sum

/-- Row-wise step of `VectorIndex.build`: divide by the L2 norm, where a zero
norm is replaced by `1e-9` (`norms[norms == 0] = 1e-9`). -/
def normalizeRow (v : List ℚ) : List ℚ :=
  let nrm := ratSqrt (sumSq v)
  let nrm := if nrm = 0 then (1 : ℚ) / 1000000000 else nrm
  v.map (fun x => x / nrm)

/-- Dot product of two same-length vectors. -/
def dotList (u v : List ℚ) : ℚ := ((List.zip u v).map (fun p => p.1 * p.2)).sum

structure VectorIndex where
  embeddings : List Ndarray
  document_ids : List String
  embeddings_matrix : NpMatrix
  normalized_embeddings_matrix : NpMatrix
deriving DecidableEq

/-- `VectorIndex.__init__`. -/
def VectorIndex.init : VectorIndex :=
  { embeddings := [], document_ids := [],
    embeddings_matrix := NpMatrix.empty00,
    normalized_embeddings_matrix := NpMatrix.empty00 }

/-- `VectorIndex.add_document(doc_id, embedding)`: raises `ValueError` unless
the argument is an ndarray with `ndim == 1` (the dtype is not inspected),
then appends to the two parallel sequences. -/
def VectorIndex.add_document (st : VectorIndex) (docId : String) (emb : PyObj) :
    Except PyError VectorIndex :=
  match emb with
  | PyObj.nonArray => Except.error PyError.valueError
  | PyObj.array a =>
    if a.ndim ≠ 1 then Except.error PyError.valueError
    else Except.ok { st with
      document_ids := st.document_ids ++ [docId]
      embeddings := st.embeddings ++ [a] }

/-- `VectorIndex.build()`: with no embeddings, both matrices become the empty
`(0, 0)` array; otherwise `np.vstack` stacks the 1-D embeddings (raising if
their lengths disagree, and failing on non-numeric arithmetic when a stored
array is not numeric) and each row is L2-normalised with the zero-norm guard. -/
def VectorIndex.build (st : VectorIndex) : Except PyError VectorIndex :=
  match st.embeddings with
  | [] => Except.ok { st with
      embeddings_matrix := NpMatrix.empty00
      normalized_embeddings_matrix := NpMatrix.empty00 }
  | e :: es =>
    if ¬ (e :: es).all (fun a => a.numeric) then Except.error PyError.typeError
    else if ¬ es.all (fun a => a.data.length == e.data.length) then
      Except.error PyError.valueError
    else
      let rows := (e :: es).map (fun a => a.data)
      Except.ok { st with
        embeddings_matrix :=
          { rows := rows.length, cols := e.data.length, data := rows }
        normalized_embeddings_matrix :=
          { rows := rows.length, cols := e.data.length,
            data := rows.map normalizeRow } }

/-- Ascending stable argsort order on indices: smaller similarity first, equal
similarities in index order.  `np.argsort(similarities)` compares the values
and, read as a stable sort (numpy's introsort falls back to a stable insertion
sort on the small arrays used here, and `kind=stable` always), returns equal
values in increasing index order — which is exactly the unique ordering by
this lexicographic relation, since indices are distinct. -/
def simAscLex (s : List ℚ) (i j : Nat) : Prop :=
  s.getD i 0 < s.getD j 0 ∨ (s.getD i 0 = s.getD j 0 ∧ i ≤ j)

instance (s : List ℚ) : DecidableRel (simAscLex s) := fun i j => by
  unfold simAscLex; infer_instance

/-- `np.argsort(similarities)` (stable, ascending). -/
def argsortQ (s : List ℚ) : List Nat :=
  List.insertionSort (simAscLex s) (List.range s.length)

/-- `VectorIndex.search(query_embedding, k)`: empty-matrix check first, then
the 1-D ndarray check (`ValueError`), then query normalisation
(`np.linalg.norm` fails on a non-numeric dtype), then
`np.dot(query_norm, matrix.T)` (raising `ValueError` when the query length
differs from the matrix column count), then rank by
`np.argsort(similarities)[::-1][:k]` and read off `(document_ids[i], sims[i])`.
`document_ids.getD i ""` totalizes the list indexing, which on states built by
this class never goes out of bounds. -/
def VectorIndex.search (st : VectorIndex) (q : PyObj) (k : Nat) :
    Except PyError (List (String × ℚ)) :=
  if st.normalized_embeddings_matrix.size = 0 then Except.ok []
  else match q with
  | PyObj.nonArray => Except.error PyError.valueError
  | PyObj.array a =>
    if a.ndim ≠ 1 then Except.error PyError.valueError
    else if ¬ a.numeric then Except.error PyError.typeError
    else
      let qn := a.data.map (fun x => x / ratSqrt (sumSq a.data))
      if qn.length ≠ st.normalized_embeddings_matrix.cols then
        Except.error PyError.valueError
      else
        let sims := st.normalized_embeddings_matrix.data.map (dotList qn)
        let order := ((argsortQ sims).reverse).take k
        Except.ok (order.map (fun i =>
          (st.document_ids.getD i "", sims.getD i 0)))

/-- Descending order on indices with ties in reverse insertion order: the
relation of `simAscLex` with its arguments swapped. -/
def simDescLex (s : List ℚ) (i j : Nat) : Prop := simAscLex s j i

instance (s : List ℚ) : DecidableRel (simDescLex s) := fun i j => by
  unfold simDescLex; infer_instance

/-- Spec-side ranking for claim C3: all indexed entries ordered by descending
similarity, equal similarities in reverse insertion order. -/
def specRanking (ids : List String) (s : List ℚ) : List (String × ℚ) :=
  (List.insertionSort (simDescLex s) (List.range s.length)).map (fun i =>
    (ids.getD i "", s.getD i 0))

/-! ### HybridRetriever (`retrieving/hybrid_retriever/hybrid_retriever.py`) -/

/-- The parameters of `KeywordScorer.score` that a keyword argument may bind:
`def score(self, query, top_k=5, normalize=True)`. -/
def keywordScoreParamNames : List String := ["query", "top_k", "normalize"]

/-- The keyword arguments used at the `self.keyword_scorer.score(query, k=k * 2)`
call inside `HybridRetriever.retrieve`. -/
def retrieveKeywordCallKwargs : List String := ["k"]

/-- Python call semantics: a call is accepted only when every keyword argument
names a parameter of the callee; otherwise `TypeError` is raised. -/
def kwargsAccepted (params kwargs : List String) : Bool :=
  kwargs.all (fun kw => params.contains kw)

deriving instance DecidableEq for Except

/-- Invariant from claim C4: every chunk id occurring in any posting list of
the inverted index has an entry in `chunk_lengths`. -/
def postingsCovered (st : InvertedIndex) : Prop :=
  ∀ t pl p, dictFind? st.index t = some pl → p ∈ pl → p.1 ∈ dictKeys st.chunk_lengths

/-- Induction invariant for claim C10: the chunk ids of every posting list
form a sublist (in order, hence with multiplicity) of `ids`. -/
def postingsWithin (st : InvertedIndex) (ids : List String) : Prop :=
  ∀ t pl, dictFind? st.index t = some pl → (pl.map Prod.fst).Sublist ids

/-! ## Helper lemmas about the dictionary model -/

theorem dictFind?_dictModify_self {α : Type} (d : List (String × α)) (k : String)
    (dflt : α) (f : α → α) :
    dictFind? (dictModify d k dflt f) k = some (f ((dictFind? d k).getD dflt)) := by
  induction d with
  | nil => simp [dictFind?, dictModify]
  | cons p rest ih =>
    by_cases h : p.1 = k
    · simp [dictFind?, dictModify, h]
    · simp [dictFind?, dictModify, h, ih]

theorem dictFind?_dictModify_ne {α : Type} (d : List (String × α)) (k c : String)
    (dflt : α) (f : α → α) (hck : c ≠ k) :
    dictFind? (dictModify d k dflt f) c = dictFind? d c := by
  induction d with
  | nil => simp [dictFind?, dictModify, hck, Ne.symm hck]
  | cons p rest ih =>
    by_cases h : p.1 = k
    · have h3 : ¬ p.1 = c := by rw [h]; exact Ne.symm hck
      simp [dictFind?, dictModify, h, h3, hck, Ne.symm hck]
    · by_cases h2 : p.1 = c <;>
        simp [dictFind?, dictModify, h, h2, hck, Ne.symm hck, ih]

theorem dictFind?_dictSet_self {α : Type} (d : List (String × α)) (k : String) (v : α) :
    dictFind? (dictSet d k v) k = some v := by
  induction d with
  | nil => simp [dictFind?, dictSet]
  | cons p rest ih =>
    by_cases h : p.1 = k
    · simp [dictFind?, dictSet, h]
    · simp [dictFind?, dictSet, h, ih]

theorem dictFind?_dictSet_ne {α : Type} (d : List (String × α)) (k c : String) (v : α)
    (hck : c ≠ k) :
    dictFind? (dictSet d k v) c = dictFind? d c := by
  induction d with
  | nil => simp [dictFind?, dictSet, hck, Ne.symm hck]
  | cons p rest ih =>
    by_cases h : p.1 = k
    · have h3 : ¬ p.1 = c := by rw [h]; exact Ne.symm hck
      simp [dictFind?, dictSet, h, h3, hck, Ne.symm hck]
    · by_cases h2 : p.1 = c <;>
        simp [dictFind?, dictSet, h, h2, hck, Ne.symm hck, ih]

/-- `raw_scores[k] += x` on a `defaultdict(float)` changes exactly the value
stored at `k`, read with the defaultdict default `0`. -/
theorem dictGetD_add (d : List (String × ℝ)) (k c : String) (x : ℝ) :
    dictGetD (dictModify d k 0 (fun v => v + x)) c 0
      = dictGetD d c 0 + (if c = k then x else 0) := by
  by_cases h : c = k
  · subst h
    simp only [dictGetD, dictFind?_dictModify_self, if_pos rfl]
    cases dictFind? d c <;> simp
  · simp [dictGetD, dictFind?_dictModify_ne _ _ _ _ _ h, h]

/-- The inner `for chunk_id, tf in postings` loop: the accumulated value at a
chunk id grows by the sum of the contributions of the postings bearing it. -/
theorem keyword_postings_fold (ps : List (String × Nat)) (g : String × Nat → ℝ)
    (acc : List (String × ℝ)) (c : String) :
    dictGetD (ps.foldl (fun a p => dictModify a p.1 0 (fun v => v + g p)) acc) c 0
      = dictGetD acc c 0 + ((ps.filter (fun p => p.1 == c)).map g).sum := by
  induction ps generalizing acc with
  | nil => simp
  | cons p rest ih =>
    simp only [List.foldl_cons, ih, dictGetD_add, List.filter_cons]
    by_cases h : p.1 = c
    · simp [h]; ring
    · simp [h, Ne.symm h]

/-- The outer `for term in query_freqs` loop: the accumulated value at a chunk
id grows by the per-term sums that `specChunkScore` describes. -/
theorem keyword_terms_fold (s : KeywordScorer) (ts : List (String × Nat))
    (acc : List (String × ℝ)) (c : String) :
    dictGetD (ts.foldl s.scoreTermStep acc) c 0
      = dictGetD acc c 0 + (ts.map (fun tp =>
          if s.inv.df tp.1 = 0 then 0
          else (((s.inv.get_postings tp.1).filter (fun p => p.1 == c)).map (fun p =>
            bm25Contribution (s.idf (s.inv.df tp.1)) s.k1 s.b (s.inv.dlOf p.1 : ℝ)
              (s.inv.avg_dl : ℝ) (p.2 : ℝ))).sum)).sum := by
  induction ts generalizing acc with
  | nil => simp
  | cons tp rest ih =>
    simp only [List.foldl_cons, ih, List.map_cons, List.sum_cons]
    by_cases h : s.inv.df tp.1 = 0
    · simp [KeywordScorer.scoreTermStep, h]
    · simp only [KeywordScorer.scoreTermStep, if_neg h, keyword_postings_fold]
      ring

/-- C1: for every inverted index built from a chunk list and every query, the
`raw_scores` accumulation of `KeywordScorer.score` assigns each chunk id the
sum, over the distinct query terms with nonzero document frequency, of
`idf(df) * tf*(k1+1) / (tf + k1*(1 - b + b*dl/avg_dl))` taken over that term's
postings for the chunk; terms with `df == 0` contribute nothing and raise no
error. -/
theorem rawScores_eq_specChunkScore (stem : String → String) (chunks : List Chunk)
    (k1 b : ℝ) (query : String) (cid : String) :
    dictGetD ((KeywordScorer.mk (InvertedIndex.build_index stem InvertedIndex.init chunks) k1 b).rawScores
        ((pyFindallWords query).map stem)) cid 0
      = specChunkScore
          (KeywordScorer.mk (InvertedIndex.build_index stem InvertedIndex.init chunks) k1 b)
          ((pyFindallWords query).map stem) cid := by
  unfold KeywordScorer.rawScores
  rw [keyword_terms_fold]
  simp [specChunkScore, dictGetD, dictFind?]

/-- With an empty posting dictionary every term step of the scoring loop is the
identity (`df == 0` skips the term). -/
theorem scoreTermStep_of_index_nil (s : KeywordScorer) (h : s.inv.index = [])
    (acc : List (String × ℝ)) (tp : String × Nat) : s.scoreTermStep acc tp = acc := by
  simp [KeywordScorer.scoreTermStep, InvertedIndex.df, InvertedIndex.get_postings, h,
    dictGetD, dictFind?]

/-- With an empty posting dictionary the whole accumulation is empty. -/
theorem rawScores_of_index_nil (s : KeywordScorer) (h : s.inv.index = [])
    (qts : List String) : s.rawScores qts = [] := by
  have hfold : ∀ (ts : List (String × Nat)) (acc : List (String × ℝ)),
      ts.foldl s.scoreTermStep acc = acc := by
    intro ts
    induction ts with
    | nil => intro acc; rfl
    | cons tp rest ih =>
      intro acc
      rw [List.foldl_cons, scoreTermStep_of_index_nil s h, ih]
  simp [KeywordScorer.rawScores, hfold]

/-- C8: an inverted index built from the empty chunk sequence has `N = 0` and
`avg_dl = 0.0`, and `KeywordScorer.score` over it returns `[]` for every
query, `top_k` and `normalize` flag without raising: every query term has
`df == 0`, so the division by `avg_dl` is never reached. -/
theorem score_on_empty_corpus (stem stem2 : String → String) (k1 b : ℝ)
    (query : String) (top_k : Nat) (normalize : Bool) :
    (InvertedIndex.build_index stem2 InvertedIndex.init []).N = 0
    ∧ (InvertedIndex.build_index stem2 InvertedIndex.init []).avg_dl = 0
    ∧ KeywordScorer.score stem
        (KeywordScorer.mk (InvertedIndex.build_index stem2 InvertedIndex.init []) k1 b)
        query top_k normalize = [] := by
  refine ⟨rfl, rfl, ?_⟩
  have hraw : (KeywordScorer.mk (InvertedIndex.build_index stem2 InvertedIndex.init []) k1 b).rawScores
      ((pyFindallWords query).map stem) = [] :=
    rawScores_of_index_nil _ rfl _
  simp [KeywordScorer.score, hraw, sortByScoreDesc]

/-- C6: the BM25 IDF `ln((N - df + 0.5) / (df + 0.5) + 1)` computed by
`KeywordScorer._idf` is non-negative whenever `0 ≤ df ≤ N`. -/
theorem idf_nonneg (s : KeywordScorer) (df : Nat) (h : df ≤ s.inv.N) :
    0 ≤ s.idf df := by
  unfold KeywordScorer.idf
  apply Real.log_nonneg
  have h1 : (0:ℝ) < (df : ℝ) + 1/2 := by positivity
  have h2 : (0:ℝ) ≤ (s.inv.N : ℝ) - (df : ℝ) + 1/2 := by
    have hc : (df:ℝ) ≤ (s.inv.N:ℝ) := by exact_mod_cast h
    linarith
  have h3 : 0 ≤ ((s.inv.N : ℝ) - (df : ℝ) + 1/2) / ((df : ℝ) + 1/2) :=
    div_nonneg h2 h1.le
  linarith

/-- Witness for C6 at `N = 3`, `df = 1` (source defaults `k1 = 1.2`,
`b = 0.75`). -/
theorem idf_nonneg_witness :
    (1 : Nat) ≤ (InvertedIndex.mk [] [] 3 0).N
    ∧ 0 ≤ (KeywordScorer.mk (InvertedIndex.mk [] [] 3 0) 1.2 0.75).idf 1 :=
  ⟨by norm_num, idf_nonneg (KeywordScorer.mk (InvertedIndex.mk [] [] 3 0) 1.2 0.75) 1
    (by norm_num)⟩

/-- C7: for fixed `idf ≥ 0`, `k1 ≥ 0`, `0 ≤ b ≤ 1`, document length `dl ≥ 0`
and `avg_dl > 0`, the BM25 per-term contribution is non-decreasing in the term
frequency on `tf ≥ 1`. -/
theorem bm25Contribution_mono (idf k1 b dl avg tf tf2 : ℝ)
    (hidf : 0 ≤ idf) (hk1 : 0 ≤ k1) (hb0 : 0 ≤ b) (hb1 : b ≤ 1)
    (hdl : 0 ≤ dl) (havg : 0 < avg) (htf : 1 ≤ tf) (h : tf ≤ tf2) :
    bm25Contribution idf k1 b dl avg tf ≤ bm25Contribution idf k1 b dl avg tf2 := by
  unfold bm25Contribution
  set K := k1 * (1 - b + b * dl / avg) with hK
  have hKnn : 0 ≤ K := by
    apply mul_nonneg hk1
    have hbd : 0 ≤ b * dl / avg := by positivity
    linarith
  have h1 : 0 < tf + K := by linarith
  have h2 : 0 < tf2 + K := by linarith
  rw [div_le_div_iff₀ h1 h2]
  have key : tf * K ≤ tf2 * K := mul_le_mul_of_nonneg_right h hKnn
  have c0 : 0 ≤ idf * (k1 + 1) := mul_nonneg hidf (by linarith)
  nlinarith [mul_le_mul_of_nonneg_left key c0]

/-- Witness for C7 at `idf = 1`, `k1 = 1`, `b = 1/2`, `dl = 2`, `avg = 1`,
`tf = 1 ≤ 2`. -/
theorem bm25Contribution_mono_witness :
    (0:ℝ) ≤ 1 ∧ bm25Contribution 1 1 (1/2) 2 1 1 ≤ bm25Contribution 1 1 (1/2) 2 1 2 :=
  ⟨by norm_num,
    bm25Contribution_mono 1 1 (1/2) 2 1 1 2 (by norm_num) (by norm_num) (by norm_num)
      (by norm_num) (by norm_num) (by norm_num) (by norm_num) (by norm_num)⟩

/-! ## Lemmas for the inverted index invariants (claims C4 and C10) -/

theorem mem_dictKeys_dictSet_self {α : Type} (d : List (String × α)) (k : String)
    (v : α) : k ∈ dictKeys (dictSet d k v) := by
  induction d with
  | nil => simp [dictSet, dictKeys]
  | cons p rest ih =>
    by_cases h : p.1 = k
    · simp [dictSet, dictKeys, h]
    · simp only [dictSet, dictKeys, List.map_cons]
      rw [if_neg (by simp [h])]
      simp only [List.map_cons, List.mem_cons]
      exact Or.inr ih

theorem mem_dictKeys_dictSet_of_mem {α : Type} (d : List (String × α)) (k a : String)
    (v : α) (h : a ∈ dictKeys d) : a ∈ dictKeys (dictSet d k v) := by
  induction d with
  | nil => simp [dictKeys] at h
  | cons p rest ih =>
    by_cases hpk : p.1 = k
    · simpa [dictSet, dictKeys, hpk] using h
    · simp only [dictKeys, List.map_cons, List.mem_cons] at h
      simp only [dictSet]
      rw [if_neg (by simp [hpk])]
      simp only [dictKeys, List.map_cons, List.mem_cons]
      rcases h with h | h
      · exact Or.inl h
      · exact Or.inr (ih h)

theorem dictKeys_dictModify {α : Type} (d : List (String × α)) (k : String)
    (dflt : α) (f : α → α) :
    dictKeys (dictModify d k dflt f)
      = if k ∈ dictKeys d then dictKeys d else dictKeys d ++ [k] := by
  induction d with
  | nil => simp [dictModify, dictKeys]
  | cons p rest ih =>
    by_cases h : p.1 = k
    · simp [dictModify, dictKeys, h]
    · simp only [dictModify, dictKeys, List.map_cons]
      rw [if_neg (by simp [h])]
      simp only [dictKeys] at ih
      by_cases hmem : k ∈ List.map Prod.fst rest
      · simp [List.mem_cons, Ne.symm h, hmem, ih]
      · simp [List.mem_cons, Ne.symm h, hmem, ih]

theorem nodup_dictKeys_dictModify {α : Type} (d : List (String × α)) (k : String)
    (dflt : α) (f : α → α) (h : (dictKeys d).Nodup) :
    (dictKeys (dictModify d k dflt f)).Nodup := by
  rw [dictKeys_dictModify]
  by_cases hmem : k ∈ dictKeys d
  · simpa [hmem]
  · rw [if_neg hmem]
    refine List.Nodup.append h (List.nodup_singleton k) ?_
    intro x hx hxk
    rw [List.mem_singleton] at hxk
    subst hxk
    exact hmem hx

theorem counter_keys_nodup (l : List String) : (dictKeys (counter l)).Nodup := by
  have haux : ∀ (ts : List String) (acc : List (String × Nat)),
      (dictKeys acc).Nodup →
      (dictKeys (ts.foldl (fun d t => dictModify d t 0 (fun n => n + 1)) acc)).Nodup := by
    intro ts
    induction ts with
    | nil => intro acc hacc; exact hacc
    | cons t rest ih =>
      intro acc hacc
      exact ih _ (nodup_dictKeys_dictModify _ _ _ _ hacc)
  exact haux l [] (by simp [dictKeys])

/-- The inner posting-append loop of `build_index` keeps every chunk id of
every posting list inside a set `S` containing the current chunk's id. -/
theorem indexFold_covered (cid : String) (S : String → Prop) (hcid : S cid)
    (ts : List (String × Nat)) (ix : List (String × List (String × Nat)))
    (h : ∀ t pl p, dictFind? ix t = some pl → p ∈ pl → S p.1) :
    ∀ t pl p,
      dictFind? (ts.foldl
        (fun ix2 tp => dictModify ix2 tp.1 [] (fun pl2 => pl2 ++ [(cid, tp.2)])) ix) t
          = some pl → p ∈ pl → S p.1 := by
  induction ts generalizing ix with
  | nil => exact h
  | cons tp rest ih =>
    rw [List.foldl_cons]
    apply ih
    intro t pl p hfind hp
    by_cases ht : t = tp.1
    · subst ht
      rw [dictFind?_dictModify_self] at hfind
      cases hfind
      rcases List.mem_append.mp hp with hp2 | hp2
      · cases hold : dictFind? ix tp.1 with
        | none => rw [hold] at hp2; simp at hp2
        | some pl0 => rw [hold] at hp2; exact h tp.1 pl0 p hold hp2
      · have : p = (cid, tp.2) := by simpa using hp2
        rw [this]
        exact hcid
    · rw [dictFind?_dictModify_ne _ _ _ _ _ ht] at hfind
      exact h t pl p hfind hp

/-- The inner posting-append loop of `build_index`, applied to pairwise
distinct terms whose current posting lists sit inside `ids`, keeps every
posting list inside `ids ++ [cid]`. -/
theorem indexFold_within (cid : String) (ids : List String)
    (ts : List (String × Nat)) (hts : (ts.map Prod.fst).Nodup)
    (ix : List (String × List (String × Nat)))
    (hall : ∀ t pl, dictFind? ix t = some pl → (pl.map Prod.fst).Sublist (ids ++ [cid]))
    (hfresh : ∀ tp, tp ∈ ts → ∀ pl, dictFind? ix tp.1 = some pl →
      (pl.map Prod.fst).Sublist ids) :
    ∀ t pl,
      dictFind? (ts.foldl
        (fun ix2 tp => dictModify ix2 tp.1 [] (fun pl2 => pl2 ++ [(cid, tp.2)])) ix) t
          = some pl → (pl.map Prod.fst).Sublist (ids ++ [cid]) := by
  induction ts generalizing ix with
  | nil => exact hall
  | cons tp rest ih =>
    rw [List.foldl_cons]
    simp only [List.map_cons, List.nodup_cons] at hts
    apply ih hts.2
    · intro t pl hfind
      by_cases ht : t = tp.1
      · subst ht
        rw [dictFind?_dictModify_self] at hfind
        cases hfind
        have hold : ((dictFind? ix tp.1).getD []).map Prod.fst |>.Sublist ids := by
          cases hold2 : dictFind? ix tp.1 with
          | none => simp
          | some pl0 => simpa using hfresh tp (by simp) pl0 hold2
        simpa using List.Sublist.append hold (List.Sublist.refl [cid])
      · rw [dictFind?_dictModify_ne _ _ _ _ _ ht] at hfind
        exact hall t pl hfind
    · intro tp2 htp2 pl hfind
      have hne : tp2.1 ≠ tp.1 := by
        intro hcontra
        exact hts.1 (hcontra ▸ List.mem_map_of_mem Prod.fst htp2)
      rw [dictFind?_dictModify_ne _ _ _ _ _ hne] at hfind
      exact hfresh tp2 (by simp [htp2]) pl hfind

/-- One chunk's processing preserves the coverage invariant: the chunk length
is recorded in `chunk_lengths` before its postings are appended. -/
theorem buildChunkStep_covered (stem : String → String) (st : InvertedIndex)
    (c : Chunk) (h : postingsCovered st) :
    postingsCovered (InvertedIndex.buildChunkStep stem st c) := by
  intro t pl p hfind hp
  refine indexFold_covered c.id
    (fun a => a ∈ dictKeys (dictSet st.chunk_lengths c.id
      (InvertedIndex.tokenizeText stem c.text).length))
    (mem_dictKeys_dictSet_self _ _ _) _ st.index ?_ t pl p hfind hp
  intro t2 pl2 p2 hfind2 hp2
  exact mem_dictKeys_dictSet_of_mem _ _ _ _ (h t2 pl2 p2 hfind2 hp2)

/-- The whole chunk loop preserves the coverage invariant. -/
theorem buildFold_covered (stem : String → String) (chunks : List Chunk) :
    ∀ (st : InvertedIndex), postingsCovered st →
      postingsCovered (chunks.foldl (InvertedIndex.buildChunkStep stem) st) := by
  induction chunks with
  | nil => intro st h; exact h
  | cons c rest ih =>
    intro st h
    rw [List.foldl_cons]
    exact ih _ (buildChunkStep_covered stem st c h)

/-- One chunk's processing extends the id budget of every posting list by the
processed chunk's id. -/
theorem buildChunkStep_within (stem : String → String) (st : InvertedIndex)
    (c : Chunk) (ids : List String) (h : postingsWithin st ids) :
    postingsWithin (InvertedIndex.buildChunkStep stem st c) (ids ++ [c.id]) := by
  intro t pl hfind
  refine indexFold_within c.id ids _ ?_ st.index ?_ ?_ t pl hfind
  · exact counter_keys_nodup _
  · intro t2 pl2 hfind2
    exact (h t2 pl2 hfind2).trans (List.sublist_append_left ids [c.id])
  · intro tp htp pl2 hfind2
    exact h tp.1 pl2 hfind2

/-- The whole chunk loop: posting-list chunk ids form sublists of the prior
budget followed by the processed chunk ids, in order. -/
theorem buildFold_within (stem : String → String) (chunks : List Chunk) :
    ∀ (st : InvertedIndex) (ids : List String), postingsWithin st ids →
      postingsWithin (chunks.foldl (InvertedIndex.buildChunkStep stem) st)
        (ids ++ chunks.map Chunk.id) := by
  induction chunks with
  | nil => intro st ids h; simpa using h
  | cons c rest ih =>
    intro st ids h
    rw [List.foldl_cons]
    have h2 := ih (InvertedIndex.buildChunkStep stem st c) (ids ++ [c.id])
      (buildChunkStep_within stem st c ids h)
    simpa [List.append_assoc] using h2

/-- C4 (amended): after every `build_index` call on a state whose posting
lists are covered by `chunk_lengths` — in particular after any sequence of
builds starting from `__init__`, rebuilds included — the index satisfies
`sum(chunk_lengths.values()) / N == avg_dl` whenever `N > 0`, and every chunk
id appearing in any posting list has an entry in `chunk_lengths`. -/
theorem build_index_invariants (stem : String → String) (st : InvertedIndex)
    (chunks : List Chunk) (h : postingsCovered st) :
    ((InvertedIndex.build_index stem st chunks).N ≠ 0 →
      (((InvertedIndex.build_index stem st chunks).chunk_lengths.map
          (fun p => (p.2 : ℚ))).sum) / ((InvertedIndex.build_index stem st chunks).N : ℚ)
        = (InvertedIndex.build_index stem st chunks).avg_dl)
    ∧ postingsCovered (InvertedIndex.build_index stem st chunks) := by
  constructor
  · intro hn
    simp only [InvertedIndex.build_index] at hn ⊢
    rw [if_neg hn]
  · have hcov := buildFold_covered stem chunks st h
    intro t pl p hfind hp
    exact hcov t pl p hfind hp

/-- Witness for C4: a build of one concrete chunk on the fresh index. -/
theorem build_index_invariants_witness :
    postingsCovered InvertedIndex.init
    ∧ (((InvertedIndex.build_index id InvertedIndex.init
          [Chunk.mk "c1" "d" "a b" 0]).N ≠ 0 →
        (((InvertedIndex.build_index id InvertedIndex.init
            [Chunk.mk "c1" "d" "a b" 0]).chunk_lengths.map
            (fun p => (p.2 : ℚ))).sum) / ((InvertedIndex.build_index id InvertedIndex.init
            [Chunk.mk "c1" "d" "a b" 0]).N : ℚ)
          = (InvertedIndex.build_index id InvertedIndex.init
            [Chunk.mk "c1" "d" "a b" 0]).avg_dl)
      ∧ postingsCovered (InvertedIndex.build_index id InvertedIndex.init
          [Chunk.mk "c1" "d" "a b" 0])) := by
  have hcov : postingsCovered InvertedIndex.init := by
    intro t pl p hfind hp
    simp [InvertedIndex.init, dictFind?] at hfind
  exact ⟨hcov, build_index_invariants id InvertedIndex.init [Chunk.mk "c1" "d" "a b" 0] hcov⟩

/-- Counterexample to C4 as stated: rebuilding does NOT replace all state.
After building `[c1]` and then rebuilding with `[c2]`, the length entry of
`c1` is still present (`chunk_lengths` keeps two entries while `N = 1`), and
the posting dictionary differs from the one of a fresh build of `[c2]`. -/
theorem build_index_rebuild_retains_state :
    dictFind? ((InvertedIndex.build_index id
        (InvertedIndex.build_index id InvertedIndex.init [Chunk.mk "c1" "d" "a b" 0])
        [Chunk.mk "c2" "d" "c" 0]).chunk_lengths) "c1" = some 2
    ∧ (InvertedIndex.build_index id
        (InvertedIndex.build_index id InvertedIndex.init [Chunk.mk "c1" "d" "a b" 0])
        [Chunk.mk "c2" "d" "c" 0]).N = 1
    ∧ (InvertedIndex.build_index id
        (InvertedIndex.build_index id InvertedIndex.init [Chunk.mk "c1" "d" "a b" 0])
        [Chunk.mk "c2" "d" "c" 0]).index
      ≠ (InvertedIndex.build_index id InvertedIndex.init [Chunk.mk "c2" "d" "c" 0]).index := by
  refine ⟨by decide, by decide, by decide⟩

/-- C10: after a single `build_index` on a fresh index over chunks with
pairwise distinct ids, every term's posting list mentions each chunk id at
most once, and `df(term) ≤ N`. -/
theorem build_index_postings_nodup (stem : String → String) (chunks : List Chunk)
    (term : String) (h : (chunks.map Chunk.id).Nodup) :
    (((InvertedIndex.build_index stem InvertedIndex.init chunks).get_postings term).map
        Prod.fst).Nodup
    ∧ (InvertedIndex.build_index stem InvertedIndex.init chunks).df term
        ≤ (InvertedIndex.build_index stem InvertedIndex.init chunks).N := by
  have hwithin : postingsWithin
      (chunks.foldl (InvertedIndex.buildChunkStep stem) InvertedIndex.init)
      (chunks.map Chunk.id) := by
    have hinit : postingsWithin InvertedIndex.init [] := by
      intro t pl hfind
      simp [InvertedIndex.init, dictFind?] at hfind
    simpa using buildFold_within stem chunks InvertedIndex.init [] hinit
  have hidx : (InvertedIndex.build_index stem InvertedIndex.init chunks).index
      = (chunks.foldl (InvertedIndex.buildChunkStep stem) InvertedIndex.init).index := rfl
  have hN : (InvertedIndex.build_index stem InvertedIndex.init chunks).N
      = chunks.length := rfl
  cases hfind : dictFind?
      (InvertedIndex.build_index stem InvertedIndex.init chunks).index (pyLower term) with
  | none =>
    constructor
    · simp [InvertedIndex.get_postings, dictGetD, hfind]
    · simp [InvertedIndex.df, dictGetD, hfind]
  | some pl =>
    have hsub : (pl.map Prod.fst).Sublist (chunks.map Chunk.id) :=
      hwithin (pyLower term) pl (hidx ▸ hfind)
    constructor
    · have hnodup : (pl.map Prod.fst).Nodup := h.sublist hsub
      simpa [InvertedIndex.get_postings, dictGetD, hfind] using hnodup
    · have hlen : pl.length ≤ chunks.length := by
        have h2 := hsub.length_le
        simpa using h2
      simp [InvertedIndex.df, dictGetD, hfind, hN, hlen]

/-- Witness for C10: two concrete chunks with distinct ids sharing the term
`b`. -/
theorem build_index_postings_nodup_witness :
    ([Chunk.mk "c1" "d" "a b" 0, Chunk.mk "c2" "d" "b" 0].map Chunk.id).Nodup
    ∧ ((((InvertedIndex.build_index id InvertedIndex.init
          [Chunk.mk "c1" "d" "a b" 0, Chunk.mk "c2" "d" "b" 0]).get_postings "b").map
          Prod.fst).Nodup
      ∧ (InvertedIndex.build_index id InvertedIndex.init
          [Chunk.mk "c1" "d" "a b" 0, Chunk.mk "c2" "d" "b" 0]).df "b"
          ≤ (InvertedIndex.build_index id InvertedIndex.init
          [Chunk.mk "c1" "d" "a b" 0, Chunk.mk "c2" "d" "b" 0]).N) :=
  ⟨by decide, build_index_postings_nodup id
    [Chunk.mk "c1" "d" "a b" 0, Chunk.mk "c2" "d" "b" 0] "b" (by decide)⟩

/-- C2 (code bug): `HybridRetriever.retrieve` calls
`self.keyword_scorer.score(query, k=k * 2)`, but `KeywordScorer.score` has no
parameter named `k` (its parameters are `query`, `top_k`, `normalize`), so
Python rejects the call with `TypeError` on every invocation of `retrieve` —
the RRF fusion below that line is unreachable, and the claimed behaviour never
occurs.  (Independently, the fusion loops read `doc.id` from the keyword
results, whose elements are `(str, float)` tuples.) -/
theorem retrieve_keyword_call_rejected :
    kwargsAccepted keywordScoreParamNames retrieveKeywordCallKwargs = false := by
  decide

/-- C9: when the normalized matrix is empty, `VectorIndex.search` returns `[]`
for every query argument whatsoever — the emptiness check precedes the query
validation, so no error is raised even for a non-array query. -/
theorem search_empty_matrix (st : VectorIndex) (q : PyObj) (k : Nat)
    (h : st.normalized_embeddings_matrix.size = 0) :
    st.search q k = Except.ok [] := by
  unfold VectorIndex.search
  rw [if_pos h]

/-- Witness for C9: the fresh index queried with a non-array object. -/
theorem search_empty_matrix_witness :
    VectorIndex.init.normalized_embeddings_matrix.size = 0
    ∧ VectorIndex.init.search PyObj.nonArray 5 = Except.ok [] :=
  ⟨by decide, search_empty_matrix VectorIndex.init PyObj.nonArray 5 (by decide)⟩

/-- Counterexample to C5 as stated: `add_document` checks only
`isinstance(embedding, np.ndarray)` and `ndim == 1`; it never inspects the
dtype, so a 1-D ndarray that is NOT a numeric vector (here one of non-numeric
dtype) is accepted without any error. -/
theorem add_document_accepts_non_numeric :
    VectorIndex.init.add_document "c" (PyObj.array (Ndarray.mk [1] false []))
      = Except.ok (VectorIndex.mk [Ndarray.mk [1] false []] ["c"]
          NpMatrix.empty00 NpMatrix.empty00)
    ∧ (Ndarray.mk [1] false []).numeric = false := by
  exact ⟨by decide, rfl⟩

/-- C5 (amended): `add_document` fails with `ValueError` exactly when the
argument is not a 1-D ndarray (dtype is not checked); on a non-empty index,
`search` fails with `ValueError` for every query that is not a 1-D ndarray,
and for a 1-D numeric query whose length differs from the matrix dimension it
fails with `ValueError` at the dot product; no other coercion is performed. -/
theorem add_and_search_validation (st st2 : VectorIndex) (docId : String)
    (emb q : PyObj) (k : Nat) (a : Ndarray) :
    (VectorIndex.add_document st docId emb = Except.error PyError.valueError
      ↔ ¬ ∃ b, emb = PyObj.array b ∧ b.ndim = 1)
    ∧ (st2.normalized_embeddings_matrix.size ≠ 0 →
        (¬ ∃ b, q = PyObj.array b ∧ b.ndim = 1) →
        st2.search q k = Except.error PyError.valueError)
    ∧ (st2.normalized_embeddings_matrix.size ≠ 0 → a.ndim = 1 → a.numeric = true →
        a.data.length ≠ st2.normalized_embeddings_matrix.cols →
        st2.search (PyObj.array a) k = Except.error PyError.valueError) := by
  refine ⟨?_, ?_, ?_⟩
  · cases emb with
    | nonArray => simp [VectorIndex.add_document]
    | array b =>
      by_cases hb : b.ndim = 1
      · simp [VectorIndex.add_document, hb]
      · simp [VectorIndex.add_document, hb]
  · intro hsz hq
    cases q with
    | nonArray => simp [VectorIndex.search, hsz]
    | array b =>
      have hb : b.ndim ≠ 1 := fun hcontra => hq ⟨b, rfl, hcontra⟩
      simp [VectorIndex.search, hsz, hb]
  · intro hsz ha1 ha2 hlen
    simp [VectorIndex.search, hsz, ha1, ha2, hlen]

/-- Witness for C5 at a non-array add argument, a one-row index queried with a
non-array object and with a length-2 numeric query against dimension 1. -/
theorem add_and_search_validation_witness :
    (VectorIndex.add_document VectorIndex.init "x" PyObj.nonArray
        = Except.error PyError.valueError)
    ∧ ((VectorIndex.mk [Ndarray.mk [1] true [2]] ["a"]
          (NpMatrix.mk 1 1 [[2]]) (NpMatrix.mk 1 1 [[1]])).search PyObj.nonArray 1
        = Except.error PyError.valueError)
    ∧ ((VectorIndex.mk [Ndarray.mk [1] true [2]] ["a"]
          (NpMatrix.mk 1 1 [[2]]) (NpMatrix.mk 1 1 [[1]])).search
          (PyObj.array (Ndarray.mk [2] true [1, 1])) 1
        = Except.error PyError.valueError) := by
  have h := add_and_search_validation VectorIndex.init
    (VectorIndex.mk [Ndarray.mk [1] true [2]] ["a"]
      (NpMatrix.mk 1 1 [[2]]) (NpMatrix.mk 1 1 [[1]]))
    "x" PyObj.nonArray PyObj.nonArray 1 (Ndarray.mk [2] true [1, 1])
  refine ⟨h.1.mpr ?_, h.2.1 (by decide) ?_, h.2.2 (by decide) (by decide) (by decide) (by decide)⟩
  · rintro ⟨b, hb, -⟩
    cases hb
  · rintro ⟨b, hb, -⟩
    cases hb

/-! ## The similarity ranking order (claim C3) -/

theorem simAscLex_total (s : List ℚ) : ∀ i j, simAscLex s i j ∨ simAscLex s j i := by
  intro i j
  rcases lt_trichotomy (s.getD i 0) (s.getD j 0) with h | h | h
  · exact Or.inl (Or.inl h)
  · rcases Nat.le_total i j with hij | hij
    · exact Or.inl (Or.inr ⟨h, hij⟩)
    · exact Or.inr (Or.inr ⟨h.symm, hij⟩)
  · exact Or.inr (Or.inl h)

theorem simAscLex_trans (s : List ℚ) :
    ∀ i j m, simAscLex s i j → simAscLex s j m → simAscLex s i m := by
  intro i j m hij hjm
  rcases hij with h1 | ⟨h1, h1b⟩
  · rcases hjm with h2 | ⟨h2, h2b⟩
    · exact Or.inl (h1.trans h2)
    · exact Or.inl (by rw [← h2]; exact h1)
  · rcases hjm with h2 | ⟨h2, h2b⟩
    · exact Or.inl (by rw [h1]; exact h2)
    · exact Or.inr ⟨h1.trans h2, h1b.trans h2b⟩

theorem simAscLex_antisymm (s : List ℚ) :
    ∀ i j, simAscLex s i j → simAscLex s j i → i = j := by
  intro i j hij hji
  rcases hij with h1 | ⟨h1, h1b⟩ <;> rcases hji with h2 | ⟨h2, h2b⟩
  · exact absurd (h1.trans h2) (lt_irrefl _)
  · exact absurd (by rw [h2] at h1; exact h1) (lt_irrefl _)
  · exact absurd (by rw [h1] at h2; exact h2) (lt_irrefl _)
  · exact Nat.le_antisymm h1b h2b

/-- `np.argsort(similarities)[::-1]` orders the indices by descending
similarity with ties in reverse insertion order: reversing the stable
ascending argsort is the sort by `simDescLex`. -/
theorem argsortQ_reverse_eq (s : List ℚ) :
    (argsortQ s).reverse = List.insertionSort (simDescLex s) (List.range s.length) := by
  haveI : IsTotal Nat (simAscLex s) := ⟨simAscLex_total s⟩
  haveI : IsTrans Nat (simAscLex s) := ⟨simAscLex_trans s⟩
  haveI : IsTotal Nat (simDescLex s) := ⟨fun i j => simAscLex_total s j i⟩
  haveI : IsTrans Nat (simDescLex s) :=
    ⟨fun i j m hij hjm => simAscLex_trans s m j i hjm hij⟩
  haveI : IsAntisymm Nat (simDescLex s) :=
    ⟨fun i j hij hji => (simAscLex_antisymm s j i hij hji).symm⟩
  apply List.eq_of_perm_of_sorted (r := simDescLex s)
  · exact ((List.reverse_perm _).trans (List.perm_insertionSort _ _)).trans
      (List.perm_insertionSort _ _).symm
  · have hs := List.sorted_insertionSort (simAscLex s) (List.range s.length)
    unfold argsortQ
    rw [List.Sorted, List.pairwise_reverse]
    exact hs
  · exact List.sorted_insertionSort _ _

/-- `VectorIndex.build` on a nonempty, all-numeric, equal-length embedding
list: `np.vstack` succeeds and both matrices are filled, the second with the
row-normalised data. -/
theorem build_of_wf (st0 : VectorIndex) (e : Ndarray) (es : List Ndarray)
    (hemb : st0.embeddings = e :: es)
    (hnum : ∀ x, x ∈ e :: es → x.numeric = true)
    (hlen2 : ∀ x, x ∈ es → x.data.length = e.data.length) :
    st0.build = Except.ok { st0 with
      embeddings_matrix := NpMatrix.mk ((e :: es).map (fun x => x.data)).length
        e.data.length ((e :: es).map (fun x => x.data))
      normalized_embeddings_matrix := NpMatrix.mk ((e :: es).map (fun x => x.data)).length
        e.data.length (((e :: es).map (fun x => x.data)).map normalizeRow) } := by
  unfold VectorIndex.build
  rw [hemb]
  have hall1 : (e :: es).all (fun x => x.numeric) = true := by
    rw [List.all_eq_true]; exact hnum
  have hall2 : es.all (fun x => x.data.length == e.data.length) = true := by
    rw [List.all_eq_true]
    intro x hx
    simpa using hlen2 x hx
  simp only [hall1, hall2]
  simp

/-- C3 (amended): on an index built from a nonempty list of numeric
`d`-dimensional embeddings (`d > 0`) and queried with a 1-D numeric embedding
of length `d`, `search` returns the first `k` entries of the full ranking of
all indexed `(chunk_id, similarity)` pairs sorted by descending similarity
with ties broken by REVERSE insertion order (the ascending argsort is
reversed, so among equal scores later-inserted entries come first); the full
ranking has one entry per indexed embedding, so `k` larger than the corpus
returns all entries. -/
theorem vector_search_ranking (ids : List String) (e : Ndarray) (es : List Ndarray)
    (st0 st : VectorIndex) (a : Ndarray) (k d : Nat)
    (hnum : ∀ x, x ∈ e :: es → x.numeric = true)
    (hlen : ∀ x, x ∈ e :: es → x.data.length = d)
    (hd : d ≠ 0)
    (hst0 : st0.embeddings = e :: es)
    (hids : st0.document_ids = ids)
    (hbuild : st0.build = Except.ok st)
    (ha1 : a.ndim = 1) (ha2 : a.numeric = true) (ha3 : a.data.length = d) :
    st.search (PyObj.array a) k
      = Except.ok ((specRanking ids (st.normalized_embeddings_matrix.data.map
          (dotList (a.data.map (fun x => x / ratSqrt (sumSq a.data)))))).take k)
    ∧ (specRanking ids (st.normalized_embeddings_matrix.data.map
        (dotList (a.data.map (fun x => x / ratSqrt (sumSq a.data)))))).length
        = (e :: es).length
    ∧ List.Sorted (fun x y : String × ℚ => y.2 ≤ x.2)
        (specRanking ids (st.normalized_embeddings_matrix.data.map
          (dotList (a.data.map (fun x => x / ratSqrt (sumSq a.data)))))) := by
  have hbuild2 := build_of_wf st0 e es hst0 hnum
    (fun x hx => by rw [hlen x (List.mem_cons_of_mem _ hx),
      hlen e (List.mem_cons_self _ _)])
  rw [hbuild] at hbuild2
  have hst : st = { st0 with
      embeddings_matrix := NpMatrix.mk ((e :: es).map (fun x => x.data)).length
        e.data.length ((e :: es).map (fun x => x.data))
      normalized_embeddings_matrix := NpMatrix.mk ((e :: es).map (fun x => x.data)).length
        e.data.length (((e :: es).map (fun x => x.data)).map normalizeRow) } :=
    Except.ok.inj hbuild2
  set sims := st.normalized_embeddings_matrix.data.map
    (dotList (a.data.map (fun x => x / ratSqrt (sumSq a.data)))) with hsims
  have hed : e.data.length = d := hlen e (List.mem_cons_self _ _)
  have hcols : st.normalized_embeddings_matrix.cols = d := by rw [hst]; exact hed
  have hrows : st.normalized_embeddings_matrix.rows = es.length + 1 := by
    rw [hst]; simp
  have hsz : st.normalized_embeddings_matrix.size ≠ 0 := by
    unfold NpMatrix.size
    rw [hcols, hrows]
    exact Nat.mul_ne_zero (Nat.succ_ne_zero _) hd
  have hdlen : st.normalized_embeddings_matrix.data.length = es.length + 1 := by
    rw [hst]; simp
  have hslen : sims.length = es.length + 1 := by rw [hsims, List.length_map, hdlen]
  have hqlen : (a.data.map (fun x => x / ratSqrt (sumSq a.data))).length
      = st.normalized_embeddings_matrix.cols := by
    rw [List.length_map, ha3, hcols]
  have hids2 : st.document_ids = ids := by rw [hst]; exact hids
  refine ⟨?_, ?_, ?_⟩
  · show st.search (PyObj.array a) k = Except.ok ((specRanking ids sims).take k)
    unfold VectorIndex.search
    rw [if_neg hsz]
    simp only [ha1, ha2]
    rw [if_neg (by simp), if_neg (by simp), if_neg (by rw [hqlen]; simp)]
    rw [← hsims, hids2]
    unfold specRanking
    rw [argsortQ_reverse_eq, List.map_take]
  · unfold specRanking
    rw [List.length_map, List.length_insertionSort, List.length_range, hslen]
    simp
  · unfold specRanking
    haveI : IsTotal Nat (simDescLex sims) := ⟨fun i j => simAscLex_total sims j i⟩
    haveI : IsTrans Nat (simDescLex sims) :=
      ⟨fun i j m hij hjm => simAscLex_trans sims m j i hjm hij⟩
    have hp := List.sorted_insertionSort (simDescLex sims) (List.range sims.length)
    refine List.Pairwise.map _ ?_ hp
    intro i j hij
    rcases hij with h | ⟨h, -⟩
    · exact le_of_lt h
    · exact le_of_eq h

/-- Counterexample to C3 as stated: two identical embeddings `[1, 0]` are
added under ids `"a"` (position 0) and then `"b"` (position 1); searching with
the same vector gives equal similarity 1 for both, and the code returns
`[("b", 1), ("a", 1)]` — ties in REVERSE insertion order, where the claim's
tie-break by original insertion order predicts `[("a", 1), ("b", 1)]`. -/
theorem search_tie_reverse_counterexample :
    (VectorIndex.init.add_document "a"
        (PyObj.array (Ndarray.mk [2] true [1, 0]))).bind (fun s1 =>
      (s1.add_document "b"
        (PyObj.array (Ndarray.mk [2] true [1, 0]))).bind (fun s2 =>
      s2.build.bind (fun s3 =>
      s3.search (PyObj.array (Ndarray.mk [2] true [1, 0])) 2)))
    = Except.ok [("b", 1), ("a", 1)] := by
  norm_num [VectorIndex.init, VectorIndex.add_document, VectorIndex.build,
    VectorIndex.search, Ndarray.ndim, NpMatrix.size, NpMatrix.empty00, Except.bind,
    normalizeRow, ratSqrt, sumSq, dotList, argsortQ, simAscLex,
    List.range_succ, List.insertionSort, List.orderedInsert]

/-- Witness for C3 at a concrete 2-vector index with unit basis embeddings. -/
theorem vector_search_ranking_witness :
    (Ndarray.mk [2] true [1, 0]).ndim = 1
    ∧ ((VectorIndex.mk [Ndarray.mk [2] true [1, 0], Ndarray.mk [2] true [0, 1]]
          ["a", "b"] NpMatrix.empty00 NpMatrix.empty00).build
        = Except.ok (VectorIndex.mk
            [Ndarray.mk [2] true [1, 0], Ndarray.mk [2] true [0, 1]] ["a", "b"]
            (NpMatrix.mk 2 2 [[1, 0], [0, 1]]) (NpMatrix.mk 2 2 [[1, 0], [0, 1]])))
    ∧ ((VectorIndex.mk [Ndarray.mk [2] true [1, 0], Ndarray.mk [2] true [0, 1]]
          ["a", "b"] (NpMatrix.mk 2 2 [[1, 0], [0, 1]])
          (NpMatrix.mk 2 2 [[1, 0], [0, 1]])).search
          (PyObj.array (Ndarray.mk [2] true [1, 0])) 1
        = Except.ok ((specRanking ["a", "b"]
            ((VectorIndex.mk [Ndarray.mk [2] true [1, 0], Ndarray.mk [2] true [0, 1]]
              ["a", "b"] (NpMatrix.mk 2 2 [[1, 0], [0, 1]])
              (NpMatrix.mk 2 2 [[1, 0], [0, 1]])).normalized_embeddings_matrix.data.map
              (dotList ((Ndarray.mk [2] true [1, 0]).data.map
                (fun x => x / ratSqrt (sumSq (Ndarray.mk [2] true [1, 0]).data)))))).take 1)
      ∧ (specRanking ["a", "b"]
            ((VectorIndex.mk [Ndarray.mk [2] true [1, 0], Ndarray.mk [2] true [0, 1]]
              ["a", "b"] (NpMatrix.mk 2 2 [[1, 0], [0, 1]])
              (NpMatrix.mk 2 2 [[1, 0], [0, 1]])).normalized_embeddings_matrix.data.map
              (dotList ((Ndarray.mk [2] true [1, 0]).data.map
                (fun x => x / ratSqrt (sumSq (Ndarray.mk [2] true [1, 0]).data)))))).length
          = ([Ndarray.mk [2] true [1, 0], Ndarray.mk [2] true [0, 1]] : List Ndarray).length
      ∧ List.Sorted (fun x y : String × ℚ => y.2 ≤ x.2)
          (specRanking ["a", "b"]
            ((VectorIndex.mk [Ndarray.mk [2] true [1, 0], Ndarray.mk [2] true [0, 1]]
              ["a", "b"] (NpMatrix.mk 2 2 [[1, 0], [0, 1]])
              (NpMatrix.mk 2 2 [[1, 0], [0, 1]])).normalized_embeddings_matrix.data.map
              (dotList ((Ndarray.mk [2] true [1, 0]).data.map
                (fun x => x / ratSqrt (sumSq (Ndarray.mk [2] true [1, 0]).data))))))) := by
  refine ⟨rfl, ?_, ?_⟩
  · norm_num [VectorIndex.build, normalizeRow, ratSqrt, sumSq]
  · exact vector_search_ranking ["a", "b"] (Ndarray.mk [2] true [1, 0])
      [Ndarray.mk [2] true [0, 1]]
      (VectorIndex.mk [Ndarray.mk [2] true [1, 0], Ndarray.mk [2] true [0, 1]]
        ["a", "b"] NpMatrix.empty00 NpMatrix.empty00)
      (VectorIndex.mk [Ndarray.mk [2] true [1, 0], Ndarray.mk [2] true [0, 1]]
        ["a", "b"] (NpMatrix.mk 2 2 [[1, 0], [0, 1]]) (NpMatrix.mk 2 2 [[1, 0], [0, 1]]))
      (Ndarray.mk [2] true [1, 0]) 1 2
      (by decide) (by decide) (by decide) rfl rfl
      (by norm_num [VectorIndex.build, normalizeRow, ratSqrt, sumSq]) rfl rfl rfl
